import Mathlib

/-!
Verification of the Okdesk API documentation extractor (`api_parser.py`)
against its natural-language specification.  The Python source is shallowly
embedded: the parsed HTML tree (BeautifulSoup's `Tag`/`NavigableString`) is a
mutual inductive, Python `dict`s are association lists with Python insertion
semantics, and fallible code returns `Except PyErr`.
-/

deriving instance DecidableEq for Except

namespace Okdesk

/-! ## Text normalisation (`normalize_text`) -/

/-- The characters Python's `str.split()` (no argument) treats as whitespace:
the Unicode whitespace set used by `str.isspace`. -/
def pyIsSpace (c : Char) : Bool :=
  c = ' ' || c = '\t' || c = '\n' || c = '\x0b' || c = '\x0c' || c = '\r' ||
  c = '\x1c' || c = '\x1d' || c = '\x1e' || c = '\x1f' || c = '\x85' ||
  c = '\xa0' || c = '\u1680' || ('\u2000' ≤ c && c ≤ '\u200A') ||
  c = '\u2028' || c = '\u2029' || c = '\u202F' || c = '\u205F' || c = '\u3000'

/-- `str.split()` on a character list: maximal runs of non-whitespace
characters, in order.  `acc` holds the current word reversed. -/
def splitWsAux : List Char → List Char → List (List Char)
  | [], [] => []
  | [], a :: as => [(a :: as).reverse]
  | c :: cs, acc =>
    if pyIsSpace c then
      match acc with
      | [] => splitWsAux cs []
      | a :: as => (a :: as).reverse :: splitWsAux cs []
    else splitWsAux cs (c :: acc)

/-- Python `text.split()`. -/
def splitWs (cs : List Char) : List (List Char) := splitWsAux cs []

/-- Python `" ".join(words)`. -/
def joinSpace : List (List Char) → List Char
  | [] => []
  | [w] => w
  | w :: w₂ :: ws => w ++ ' ' :: joinSpace (w₂ :: ws)

/-- `normalize_text`: `" ".join(text.replace("¶", "").split())`.
`replace("¶", "")` deletes every occurrence of the single character `¶`. -/
def normalize_text (text : String) : String :=
  String.mk (joinSpace (splitWs (text.data.filter (fun c => c ≠ '¶'))))

/-- Python `text.strip()`: drop leading and trailing whitespace. -/
def pyStrip (s : String) : String :=
  String.mk (((s.data.dropWhile pyIsSpace).reverse.dropWhile pyIsSpace).reverse)

/-! ## Substring test (Python's `in` on strings) -/

/-- Is the first list a prefix of the second (decidable, by Char equality)? -/
def isPre : List Char → List Char → Bool
  | [], _ => true
  | _ :: _, [] => false
  | a :: as, b :: bs => a = b && isPre as bs

/-- Does `pat` occur as a contiguous sublist? -/
def containsSub (pat : List Char) : List Char → Bool
  | [] => pat.isEmpty
  | c :: cs => isPre pat (c :: cs) || containsSub pat cs

/-- Python `pat in s` on strings (case-sensitive substring test). -/
def strContains (s pat : String) : Bool := containsSub pat.data s.data

/-! ## The parsed HTML tree (BeautifulSoup's `PageElement`)

A node is either a `Tag` (an element, with a tag name, an optional `class`
attribute — BeautifulSoup stores `class` as a list of space-separated tokens —
its other attributes and its children, in document order) or a
`NavigableString` (raw text). -/

mutual
inductive Node : Type where
  | tag (t : Tag) : Node
  | text (s : String) : Node
inductive Tag : Type where
  | mk (name : String) (classAttr : Option (List String))
       (attrs : List (String × String)) (children : List Node) : Tag
end

/-- The element's tag name (`Tag.name`). -/
def Tag.name : Tag → String
  | .mk n _ _ _ => n

/-- BeautifulSoup's multi-valued `class` attribute, when present. -/
def Tag.classAttr : Tag → Option (List String)
  | .mk _ c _ _ => c

/-- Non-`class` attributes, e.g. `href`. -/
def Tag.attrs : Tag → List (String × String)
  | .mk _ _ a _ => a

/-- The element's direct children (`Tag.children`), document order,
both elements and text nodes. -/
def Tag.children : Tag → List Node
  | .mk _ _ _ cs => cs

mutual
/-- `Tag.text`: the concatenation of all descendant strings, document order. -/
def Tag.innerText : Tag → String
  | .mk _ _ _ cs => nodesText cs
/-- Concatenated text of a list of nodes. -/
def nodesText : List Node → String
  | [] => ""
  | n :: ns => nodeText n ++ nodesText ns
/-- `PageElement.text` of a single node. -/
def nodeText : Node → String
  | .text s => s
  | .tag t => Tag.innerText t
end

mutual
/-- All descendant elements of a tag in document (preorder) order, the tag
itself excluded: the search space of BeautifulSoup's `find_all`/`find`. -/
def Tag.descTags : Tag → List Tag
  | .mk _ _ _ cs => descTagsOfNodes cs
/-- Descendant elements of a node list, preorder. -/
def descTagsOfNodes : List Node → List Tag
  | [] => []
  | .text _ :: ns => descTagsOfNodes ns
  | .tag t :: ns => t :: Tag.descTags t ++ descTagsOfNodes ns
end

/-- Does the element carry the class token `c`?  BeautifulSoup matching for
`class_=c`, and also the meaning of Python `c in element.attrs.get("class", "")`
since `attrs["class"]` is the token list when present (list membership) and
the default `""` contains no substring `c` for nonempty `c`. -/
def Tag.hasClassToken (t : Tag) (c : String) : Bool :=
  match t.classAttr with
  | some tokens => tokens.contains c
  | none => false

/-- `tag.find_all(n)`: every descendant element named `n`, document order. -/
def Tag.findAllName (t : Tag) (n : String) : List Tag :=
  t.descTags.filter (fun u => u.name = n)

/-- `tag.find_all([n₁, n₂, ...])`: descendants whose name is in the list. -/
def Tag.findAllNames (t : Tag) (ns : List String) : List Tag :=
  t.descTags.filter (fun u => ns.contains u.name)

/-- `tag.find_all(class_=c)`: descendants carrying class token `c`. -/
def Tag.findAllClass (t : Tag) (c : String) : List Tag :=
  t.descTags.filter (fun u => u.hasClassToken c)

/-- `tag.find(n)`: first descendant element named `n`, or `None`. -/
def Tag.findName (t : Tag) (n : String) : Option Tag :=
  (t.findAllName n).head?

/-- `tag.find(class_=c)`: first descendant with class token `c`, or `None`. -/
def Tag.findClass (t : Tag) (c : String) : Option Tag :=
  (t.findAllClass c).head?

/-- `tag.attrs.get(k)` for a plain (single-valued) attribute such as `href`. -/
def Tag.attrGet (t : Tag) (k : String) : Option String :=
  (t.attrs.find? (fun p => p.1 = k)).map Prod.snd

/-! ## Python exceptions and dictionaries -/

/-- The Python exception kinds the program can raise.  `keyError` and
`indexError` are subclasses of Python's `LookupError`. -/
inductive PyErr : Type where
  | typeError (msg : String)
  | valueError (msg : String)
  | attributeError (msg : String)
  | keyError (key : String)
  | indexError
deriving DecidableEq

/-- Is the exception a Python `LookupError` (i.e. `KeyError` or `IndexError`)? -/
def PyErr.isLookupError : PyErr → Bool
  | .keyError _ => true
  | .indexError => true
  | _ => false

/-- A Python `dict` as an association list with unique keys in insertion
order (the invariant Python maintains). -/
def dictGet? {α : Type} (d : List (String × α)) (k : String) : Option α :=
  (d.find? (fun p => p.1 = k)).map Prod.snd

/-- Python `d[k] = v`: overwrite in place if the key exists (keeping its
position), else append. -/
def dictInsert {α : Type} : List (String × α) → String → α → List (String × α)
  | [], k, v => [(k, v)]
  | (k₂, v₂) :: rest, k, v =>
    if k₂ = k then (k₂, v) :: rest else (k₂, v₂) :: dictInsert rest k v

/-- Python `dict(pairs)`: insert the pairs left to right into an empty dict
(later occurrences of a key overwrite earlier ones). -/
def pyDict {α : Type} (ps : List (String × α)) : List (String × α) :=
  ps.foldl (fun d p => dictInsert d p.1 p.2) []

/-- Python `d[k]`: the value, or a `KeyError` naming the missing key. -/
def dictGetE {α : Type} (d : List (String × α)) (k : String) : Except PyErr α :=
  match dictGet? d k with
  | some v => .ok v
  | none => .error (.keyError k)

/-- Two-level lookup `d[k₁][k₂]` as an `Option`, for stating specifications. -/
def dictGet2? {α : Type} (d : List (String × List (String × α)))
    (k₁ k₂ : String) : Option α :=
  match dictGet? d k₁ with
  | none => none
  | some d₂ => dictGet? d₂ k₂

/-! ## The program (translated from `api_parser.py`) -/

/-- `ensure_tag(element)`: the element if it is a `Tag`, else a `TypeError`.
Applied to results of `find`, which are a `Tag` or `None`. -/
def ensure_tag : Option Tag → Except PyErr Tag
  | some t => .ok t
  | none => .error (.typeError "Expected Tag, got NoneType")

/-- `get_tags_only(elements)`: the `Tag` children, in order, text nodes
silently dropped. -/
def get_tags_only (elements : List Node) : List Tag :=
  elements.filterMap (fun n =>
    match n with
    | .tag t => some t
    | .text _ => none)

/-- A description item.  The Python code uses tuples:
`("p", text)`, `("h4", text)` and `("note", seg₁, ...)` are string tuples
(`strs`), `("table", rows)` is the `table` variant. -/
inductive DescItem : Type where
  | strs (parts : List String)
  | table (rows : List (List String))
deriving DecidableEq

/-- `_parse_note(note)`: the tuple `("note", *texts)` where `texts` are the
normalized texts of the note's direct child nodes whose `.strip()` is
non-empty. -/
def _parse_note (note : Tag) : DescItem :=
  let texts := note.children.map (fun element => normalize_text (nodeText element))
  let non_empty_texts := texts.filter (fun text => pyStrip text ≠ "")
  .strs ("note" :: non_empty_texts)

/-- `_parse_table(table)`: rows from `table.find_all("tr")` (all descendant
row elements, document order); cells of a row from
`row.find_all(["td", "th"])`, each cell's text normalized. -/
def _parse_table (table : Tag) : DescItem :=
  let table_rows := table.findAllName "tr"
  .table ((get_tags_only (table_rows.map Node.tag)).map (fun row =>
    (row.findAllNames ["td", "th"]).map (fun cell => normalize_text cell.innerText)))

/-- `_parse_description(elements)`: walk the sibling elements in order;
`p` → paragraph, `h4` containing `"URI"` → stop, other `h4` → heading,
`table` → table, `note`-classed element → note, anything else ignored. -/
def _parse_description : List Tag → List DescItem
  | [] => []
  | element :: rest =>
    if element.name = "p" then
      .strs ["p", normalize_text element.innerText] :: _parse_description rest
    else if element.name = "h4" ∧ strContains element.innerText "URI" = true then
      []
    else if element.name = "h4" then
      .strs ["h4", normalize_text element.innerText] :: _parse_description rest
    else if element.name = "table" then
      _parse_table element :: _parse_description rest
    else if element.hasClassToken "note" = true then
      _parse_note element :: _parse_description rest
    else
      _parse_description rest

/-- `_extract_endpoint_metadata(slice)`: unpack the two-element slice
(Python raises `ValueError` on a wrong-sized unpack), then index the second
element's tag children at 0 and 1 (Python raises `IndexError` if too few). -/
def _extract_endpoint_metadata (endpoint_children_slice : List Tag) :
    Except PyErr (String × String × String) :=
  match endpoint_children_slice with
  | [acount_name, action_heading] =>
    match get_tags_only action_heading.children with
    | c₀ :: c₁ :: _ =>
      .ok (acount_name.innerText, c₀.innerText, c₁.innerText)
    | _ => .error .indexError
  | _ => .error (.valueError "not enough values to unpack")

/-- One endpoint's record (the `EndpointData` `TypedDict`). -/
structure EndpointData : Type where
  endpoint_link : String
  method : String
  uri : String
  description : List DescItem
deriving DecidableEq

/-- `_parse_endpoint(endpoint, endpoint_links, section_name)`. -/
def _parse_endpoint (endpoint : Tag)
    (endpoint_links : List (String × List (String × String)))
    (section_name : String) : Except PyErr (String × EndpointData) :=
  let endpoint_children := get_tags_only endpoint.children
  if endpoint_children.length < 3 then
    .error (.valueError "Not enough elements to parse endpoint")
  else
    match _extract_endpoint_metadata (endpoint_children.take 2) with
    | .error e => .error e
    | .ok (ep_name, ep_http_method, ep_uri) =>
      match dictGetE endpoint_links section_name with
      | .error e => .error e
      | .ok section_links =>
        match dictGetE section_links ep_name with
        | .error e => .error e
        | .ok endpoint_link =>
          .ok (ep_name,
            { endpoint_link := endpoint_link
              method := ep_http_method
              uri := ep_uri
              description := _parse_description (endpoint_children.drop 2) })

/-- `_get_section_name(section_element)`: the normalized text of the first
descendant with class `group-heading`; `TypeError` if there is none. -/
def _get_section_name (section_element : Tag) : Except PyErr String :=
  match ensure_tag (section_element.findClass "group-heading") with
  | .error e => .error e
  | .ok section_group_heading => .ok (normalize_text section_group_heading.innerText)

/-- The `for endpoint in endpoints` loop of `_parse_section`: the
accumulator is the mutable `section_data` dict,
`section_data[endpoint_name] = endpoint_data`; a raised exception
propagates. -/
def sectionLoop (endpoint_links : List (String × List (String × String)))
    (section_name : String) :
    List Tag → List (String × EndpointData) →
      Except PyErr (List (String × EndpointData))
  | [], section_data => .ok section_data
  | endpoint :: rest, section_data =>
    match _parse_endpoint endpoint endpoint_links section_name with
    | .error e => .error e
    | .ok (endpoint_name, endpoint_data) =>
      sectionLoop endpoint_links section_name rest
        (dictInsert section_data endpoint_name endpoint_data)

/-- `_parse_section(section_element, endpoint_links)`: the section name and a
dict of its endpoints, `section_data[endpoint_name] = endpoint_data` in
document order. -/
def _parse_section (section_element : Tag)
    (endpoint_links : List (String × List (String × String))) :
    Except PyErr (String × List (String × EndpointData)) :=
  match _get_section_name section_element with
  | .error e => .error e
  | .ok section_name =>
    let endpoints := get_tags_only ((section_element.findAllClass "action").map Node.tag)
    match sectionLoop endpoint_links section_name endpoints [] with
    | .error e => .error e
    | .ok section_data => .ok (section_name, section_data)

/-- The `for section in sections` loop of `_get_okdesk_api_data`:
`api_data[section_name] = section_data`; a raised exception propagates. -/
def catalogLoop (endpoint_links : List (String × List (String × String))) :
    List Tag → List (String × List (String × EndpointData)) →
      Except PyErr (List (String × List (String × EndpointData)))
  | [], api_data => .ok api_data
  | sec :: rest, api_data =>
    match _parse_section sec endpoint_links with
    | .error e => .error e
    | .ok (section_name, section_data) =>
      catalogLoop endpoint_links rest (dictInsert api_data section_name section_data)

/-- `_get_okdesk_api_data(content, endpoint_links)`: fold the `<section>`
descendants, `api_data[section_name] = section_data` in document order. -/
def _get_okdesk_api_data (content : Tag)
    (endpoint_links : List (String × List (String × String))) :
    Except PyErr (List (String × List (String × EndpointData))) :=
  let sections := get_tags_only ((content.findAllName "section").map Node.tag)
  catalogLoop endpoint_links sections []

/-- A Python list comprehension whose element expression may raise: the
elements in order, or the first exception. -/
def exceptMap {α β : Type} (f : α → Except PyErr β) : List α → Except PyErr (List β)
  | [] => .ok []
  | a :: as =>
    match f a with
    | .error e => .error e
    | .ok b =>
      match exceptMap f as with
      | .error e => .error e
      | .ok bs => .ok (b :: bs)

/-- `_parse_resource_group_data(group, base_url)`: the dict of
`(link.text, urljoin(base_url, link["href"]))` over the group's
`rg-r-a-link` descendants.  `urljoin` (from `urllib.parse`) is an external
collaborator and is passed in as a function; `link["href"]` raises
`KeyError` when the attribute is missing. -/
def _parse_resource_group_data (urljoin : String → String → String)
    (group : Tag) (base_url : String) : Except PyErr (List (String × String)) :=
  let rg_r_a_links := get_tags_only ((group.findAllClass "rg-r-a-link").map Node.tag)
  match exceptMap (fun rg_r_a_link =>
      match rg_r_a_link.attrGet "href" with
      | some href => Except.ok (rg_r_a_link.innerText, urljoin base_url href)
      | none => Except.error (PyErr.keyError "href")) rg_r_a_links with
  | .error e => .error e
  | .ok list_of_endpoint_links_pair => .ok (pyDict list_of_endpoint_links_pair)

/-- The `for group in resource_groups` loop of
`_parse_navigation_structure`: a group with no `rg-link` is skipped
(`continue`), else
`sections_structure[rg_link.text] = _parse_resource_group_data(group, base_url)`. -/
def navLoop (urljoin : String → String → String) (base_url : String) :
    List Tag → List (String × List (String × String)) →
      Except PyErr (List (String × List (String × String)))
  | [], sections_structure => .ok sections_structure
  | group :: rest, sections_structure =>
    match group.findClass "rg-link" with
    | none => navLoop urljoin base_url rest sections_structure
    | some rg_link =>
      match _parse_resource_group_data urljoin group base_url with
      | .error e => .error e
      | .ok d =>
        navLoop urljoin base_url rest
          (dictInsert sections_structure rg_link.innerText d)

/-- `_parse_navigation_structure(nav, base_url)`: loop over the
`resource-group` descendants, accumulating into `sections_structure`. -/
def _parse_navigation_structure (urljoin : String → String → String)
    (nav : Tag) (base_url : String) :
    Except PyErr (List (String × List (String × String))) :=
  let resource_groups := get_tags_only ((nav.findAllClass "resource-group").map Node.tag)
  navLoop urljoin base_url resource_groups []

/-! ## The top-level run (`get_parsed_api_data`) -/

/-- The result shape (`ParseResult` `TypedDict` with `NotRequired` fields):
each field is present (`some`) or absent (`none`). -/
structure ParseResult : Type where
  data : Option (List (String × List (String × EndpointData)))
  error : Option String
  traceback : Option String
deriving DecidableEq

/-- What the external fetch+parse collaborators produced: either a
`requests.RequestException` (including the `raise_for_status` failure) or the
parsed page. -/
inductive FetchOutcome : Type where
  | requestError (msg : String)
  | page (soup : Tag)

/-- `_create_error_result(error_message)`; `traceback.format_exc()` is
external, its string is passed in. -/
def _create_error_result (format_exc : String) (error_message : String) :
    ParseResult :=
  { data := none, error := some error_message, traceback := some format_exc }

/-- The message each `except` clause of `get_parsed_api_data` builds:
`TypeError`/`ValueError`/`AttributeError` are caught as parsing errors,
`KeyError`/`IndexError` fall to the generic `except Exception`. -/
def exceptMessage : PyErr → String
  | .typeError m => "Parsing error: " ++ m
  | .valueError m => "Parsing error: " ++ m
  | .attributeError m => "Parsing error: " ++ m
  | .keyError k => "Unexpected error: " ++ k
  | .indexError => "Unexpected error: list index out of range"

/-- The statement sequence of the `try` block of `get_parsed_api_data` after
the external fetch: `nav = ensure_tag(soup.find("nav"))`,
`content = ensure_tag(soup.find(class_="content"))`, build the navigation
structure, extract the API data; any raised exception propagates. -/
def tryBlockBody (urljoin : String → String → String) (base_url : String)
    (soup : Tag) : Except PyErr (List (String × List (String × EndpointData))) :=
  match ensure_tag (soup.findName "nav") with
  | .error e => .error e
  | .ok nav =>
    match ensure_tag (soup.findClass "content") with
    | .error e => .error e
    | .ok content =>
      match _parse_navigation_structure urljoin nav base_url with
      | .error e => .error e
      | .ok navigation_structure =>
        _get_okdesk_api_data content navigation_structure

/-- `get_parsed_api_data`: the try/except of the top-level run.
`base_url` is `get_base_url(api_docs_url)` (external `urldefrag`). -/
def get_parsed_api_data (urljoin : String → String → String)
    (format_exc : String) (base_url : String) (outcome : FetchOutcome) :
    ParseResult :=
  match outcome with
  | .requestError m =>
    _create_error_result format_exc ("Network error: " ++ m)
  | .page soup =>
    match tryBlockBody urljoin base_url soup with
    | .ok api_data => { data := some api_data, error := none, traceback := none }
    | .error e => _create_error_result format_exc (exceptMessage e)

/-! ## Lemmas about `normalize_text` -/

theorem pyIsSpace_space : pyIsSpace ' ' = true := by decide

theorem splitWsAux_cons_space {c : Char} (hc : pyIsSpace c = true) (cs : List Char)
    (a : Char) (as : List Char) :
    splitWsAux (c :: cs) (a :: as) = (a :: as).reverse :: splitWsAux cs [] := by
  simp [splitWsAux, hc]

theorem splitWsAux_cons_space_nil {c : Char} (hc : pyIsSpace c = true) (cs : List Char) :
    splitWsAux (c :: cs) [] = splitWsAux cs [] := by
  simp [splitWsAux, hc]

theorem splitWsAux_cons_nonspace {c : Char} (hc : pyIsSpace c = false)
    (cs acc : List Char) :
    splitWsAux (c :: cs) acc = splitWsAux cs (c :: acc) := by
  simp [splitWsAux, hc]

theorem splitWsAux_nil_cons (a : Char) (as : List Char) :
    splitWsAux [] (a :: as) = [(a :: as).reverse] := rfl

/-- Every word produced by `splitWsAux` is non-empty, whitespace-free, and
made of characters of the input or of the accumulator. -/
theorem splitWsAux_words (cs : List Char) : ∀ (acc : List Char),
    (∀ c ∈ acc, pyIsSpace c = false) →
    ∀ w ∈ splitWsAux cs acc,
      w ≠ [] ∧ ∀ c ∈ w, pyIsSpace c = false ∧ (c ∈ cs ∨ c ∈ acc) := by
  induction cs with
  | nil =>
    intro acc hacc w hw
    cases acc with
    | nil => simp [splitWs, splitWsAux] at hw
    | cons a as =>
      rw [splitWsAux_nil_cons] at hw
      simp only [List.mem_singleton] at hw
      subst hw
      refine ⟨by simp, ?_⟩
      intro c hc
      rw [List.mem_reverse] at hc
      exact ⟨hacc c hc, Or.inr hc⟩
  | cons x xs ih =>
    intro acc hacc w hw
    by_cases hx : pyIsSpace x = true
    · cases acc with
      | nil =>
        rw [splitWsAux_cons_space_nil hx] at hw
        obtain ⟨h1, h2⟩ := ih [] (by simp) w hw
        refine ⟨h1, fun c hc => ?_⟩
        obtain ⟨hsp, hmem⟩ := h2 c hc
        rcases hmem with hmem | hmem
        · exact ⟨hsp, Or.inl (List.mem_cons_of_mem x hmem)⟩
        · simp at hmem
      | cons a as =>
        rw [splitWsAux_cons_space hx] at hw
        rcases List.mem_cons.mp hw with hw | hw
        · subst hw
          refine ⟨by simp, fun c hc => ?_⟩
          rw [List.mem_reverse] at hc
          exact ⟨hacc c hc, Or.inr hc⟩
        · obtain ⟨h1, h2⟩ := ih [] (by simp) w hw
          refine ⟨h1, fun c hc => ?_⟩
          obtain ⟨hsp, hmem⟩ := h2 c hc
          rcases hmem with hmem | hmem
          · exact ⟨hsp, Or.inl (List.mem_cons_of_mem x hmem)⟩
          · simp at hmem
    · rw [Bool.not_eq_true] at hx
      rw [splitWsAux_cons_nonspace hx] at hw
      have hacc2 : ∀ c ∈ x :: acc, pyIsSpace c = false := by
        intro c hc
        rcases List.mem_cons.mp hc with hc | hc
        · subst hc; exact hx
        · exact hacc c hc
      obtain ⟨h1, h2⟩ := ih (x :: acc) hacc2 w hw
      refine ⟨h1, fun c hc => ?_⟩
      obtain ⟨hsp, hmem⟩ := h2 c hc
      rcases hmem with hmem | hmem
      · exact ⟨hsp, Or.inl (List.mem_cons_of_mem x hmem)⟩
      · rcases List.mem_cons.mp hmem with hc2 | hc2
        · exact ⟨hsp, Or.inl (hc2 ▸ List.mem_cons_self x xs)⟩
        · exact ⟨hsp, Or.inr hc2⟩

/-- Consuming a whitespace-free word prepends it (reversed) to the
accumulator. -/
theorem splitWsAux_word_append (w : List Char) (hw : ∀ c ∈ w, pyIsSpace c = false) :
    ∀ (cs acc : List Char), splitWsAux (w ++ cs) acc = splitWsAux cs (w.reverse ++ acc) := by
  induction w with
  | nil => intro cs acc; simp
  | cons a w₂ ih =>
    intro cs acc
    have ha : pyIsSpace a = false := hw a (List.mem_cons_self a w₂)
    rw [List.cons_append, splitWsAux_cons_nonspace ha,
      ih (fun c hc => hw c (List.mem_cons_of_mem a hc)) cs (a :: acc)]
    simp

/-- Splitting undoes joining, for non-empty whitespace-free words. -/
theorem splitWs_joinSpace (ws : List (List Char))
    (h : ∀ w ∈ ws, w ≠ [] ∧ ∀ c ∈ w, pyIsSpace c = false) :
    splitWs (joinSpace ws) = ws := by
  induction ws with
  | nil => rfl
  | cons w tail ih =>
    obtain ⟨hw1, hw2⟩ := h w (List.mem_cons_self w tail)
    obtain ⟨b, bs, hb⟩ : ∃ b bs, w.reverse = b :: bs := by
      cases hr : w.reverse with
      | nil => exact absurd (by simpa using congrArg List.reverse hr) hw1
      | cons b bs => exact ⟨b, bs, rfl⟩
    cases tail with
    | nil =>
      show splitWsAux (joinSpace [w]) [] = [w]
      have : joinSpace [w] = w ++ [] := by simp [joinSpace]
      rw [this, splitWsAux_word_append w hw2, List.append_nil, hb,
        splitWsAux_nil_cons]
      rw [← hb]
      simp
    | cons w₂ ws₂ =>
      have hjoin : joinSpace (w :: w₂ :: ws₂) = w ++ ' ' :: joinSpace (w₂ :: ws₂) := rfl
      show splitWsAux (joinSpace (w :: w₂ :: ws₂)) [] = w :: w₂ :: ws₂
      rw [hjoin, splitWsAux_word_append w hw2, List.append_nil, hb,
        splitWsAux_cons_space pyIsSpace_space, ← hb]
      simp only [List.reverse_reverse]
      have := ih (fun u hu => h u (List.mem_cons_of_mem w hu))
      rw [List.cons_eq_cons]
      exact ⟨rfl, this⟩

/-- Every character of a join is the separating space or comes from a word. -/
theorem mem_joinSpace (ws : List (List Char)) (c : Char) (h : c ∈ joinSpace ws) :
    c = ' ' ∨ ∃ w ∈ ws, c ∈ w := by
  induction ws with
  | nil => simp [joinSpace] at h
  | cons w tail ih =>
    cases tail with
    | nil =>
      simp only [joinSpace] at h
      exact Or.inr ⟨w, List.mem_cons_self w [], h⟩
    | cons w₂ ws₂ =>
      have hjoin : joinSpace (w :: w₂ :: ws₂) = w ++ ' ' :: joinSpace (w₂ :: ws₂) := rfl
      rw [hjoin, List.mem_append] at h
      rcases h with h | h
      · exact Or.inr ⟨w, List.mem_cons_self w _, h⟩
      · rcases List.mem_cons.mp h with h | h
        · exact Or.inl h
        · rcases ih h with h | ⟨u, hu, hc⟩
          · exact Or.inl h
          · exact Or.inr ⟨u, List.mem_cons_of_mem w hu, hc⟩

/-- A join of pilcrow-free words is untouched by the pilcrow deletion. -/
theorem filter_joinSpace_pilcrow (ws : List (List Char))
    (h : ∀ w ∈ ws, ∀ c ∈ w, c ≠ '¶') :
    (joinSpace ws).filter (fun c => c ≠ '¶') = joinSpace ws := by
  rw [List.filter_eq_self]
  intro a ha
  rcases mem_joinSpace ws a ha with h1 | ⟨w, hw, hc⟩
  · subst h1; decide
  · simpa using h w hw a hc

/-- `normalize_text` is idempotent. -/
theorem normalize_text_idem (s : String) :
    normalize_text (normalize_text s) = normalize_text s := by
  have hdata : (normalize_text s).data
      = joinSpace (splitWs (s.data.filter (fun c => c ≠ '¶'))) := rfl
  have hwords := splitWsAux_words (s.data.filter (fun c => c ≠ '¶')) [] (by simp)
  have hwords2 : ∀ w ∈ splitWs (s.data.filter (fun c => c ≠ '¶')),
      w ≠ [] ∧ ∀ c ∈ w, pyIsSpace c = false := by
    intro w hw
    obtain ⟨h1, h2⟩ := hwords w hw
    exact ⟨h1, fun c hc => (h2 c hc).1⟩
  have hpil : ∀ w ∈ splitWs (s.data.filter (fun c => c ≠ '¶')), ∀ c ∈ w, c ≠ '¶' := by
    intro w hw c hc
    obtain ⟨_, h2⟩ := hwords w hw
    rcases (h2 c hc).2 with hmem | hmem
    · have := List.of_mem_filter hmem
      simpa using this
    · simp at hmem
  show String.mk (joinSpace (splitWs ((normalize_text s).data.filter (fun c => c ≠ '¶'))))
      = normalize_text s
  rw [hdata, filter_joinSpace_pilcrow _ hpil, splitWs_joinSpace _ hwords2]
  rfl

/-- C6: `normalize_text` is a total function on strings (it is a Lean `def`),
returns `""` on `""`, is idempotent, and maps `"  a \n b ¶ "` to `"a b"`. -/
theorem claim_C6 :
    (normalize_text "" = "") ∧
    (∀ x : String, normalize_text (normalize_text x) = normalize_text x) ∧
    normalize_text "  a \n b ¶ " = "a b" :=
  ⟨rfl, normalize_text_idem, by decide⟩

/-! ## Lemmas about `_parse_description` -/

/-- One step of the description walk, as an if-chain. -/
theorem parse_description_cons (e : Tag) (rest : List Tag) :
    _parse_description (e :: rest) =
      if e.name = "p" then
        .strs ["p", normalize_text e.innerText] :: _parse_description rest
      else if e.name = "h4" ∧ strContains e.innerText "URI" = true then
        []
      else if e.name = "h4" then
        .strs ["h4", normalize_text e.innerText] :: _parse_description rest
      else if e.name = "table" then
        _parse_table e :: _parse_description rest
      else if e.hasClassToken "note" = true then
        _parse_note e :: _parse_description rest
      else
        _parse_description rest := rfl

/-- C2: the walk stops at the first `h4` whose raw text contains the
case-sensitive substring `"URI"`: whatever follows it contributes nothing,
and the output is exactly the output for the siblings strictly before it. -/
theorem claim_C2 (pre post : List Tag) (h : Tag)
    (hstop : h.name = "h4" ∧ strContains h.innerText "URI" = true)
    (hpre : ∀ e ∈ pre, ¬(e.name = "h4" ∧ strContains e.innerText "URI" = true)) :
    _parse_description (pre ++ h :: post) = _parse_description pre := by
  induction pre with
  | nil =>
    rw [List.nil_append, parse_description_cons,
      if_neg (fun hp => by rw [hstop.1] at hp; exact absurd hp (by decide)),
      if_pos hstop]
    rfl
  | cons e pre ih =>
    have he := hpre e (List.mem_cons_self e pre)
    have ih2 := ih (fun u hu => hpre u (List.mem_cons_of_mem e hu))
    rw [List.cons_append, parse_description_cons e (pre ++ h :: post),
      parse_description_cons e pre]
    by_cases h1 : e.name = "p"
    · rw [if_pos h1, if_pos h1, ih2]
    · rw [if_neg h1, if_neg h1, if_neg he, if_neg he]
      by_cases h3 : e.name = "h4"
      · rw [if_pos h3, if_pos h3, ih2]
      · rw [if_neg h3, if_neg h3]
        by_cases h4 : e.name = "table"
        · rw [if_pos h4, if_pos h4, ih2]
        · rw [if_neg h4, if_neg h4]
          by_cases h5 : e.hasClassToken "note" = true
          · rw [if_pos h5, if_pos h5, ih2]
          · rw [if_neg h5, if_neg h5, ih2]

/-- A sibling list exercising C2: a paragraph, then a heading reading
`"URI Example"`, then a table and a further paragraph. -/
def c2Pre : List Tag := [.mk "p" none [] [.text "Hello"]]

/-- The stopping heading of the C2 witness. -/
def c2Stop : Tag := .mk "h4" none [] [.text "URI Example"]

/-- Siblings after the stopping heading of the C2 witness. -/
def c2Post : List Tag :=
  [.mk "table" none [] [.tag (.mk "tr" none [] [.tag (.mk "td" none [] [.text "X"])])],
   .mk "p" none [] [.text "tail"]]

theorem claim_C2_witness :
    _parse_description (c2Pre ++ c2Stop :: c2Post) = _parse_description c2Pre ∧
    _parse_description (c2Pre ++ c2Stop :: c2Post) = [.strs ["p", "Hello"]] :=
  ⟨claim_C2 c2Pre c2Post c2Stop (by decide) (by decide),
   (claim_C2 c2Pre c2Post c2Stop (by decide) (by decide)).trans (by decide)⟩

/-- C10: in the description walk the tag-name rules are tested before the
`note` class rule, so a `note`-classed `p`/`h4`/`table` is handled by its
tag rule and only elements of other tag names fall to the note rule. -/
theorem claim_C10 (t : Tag) (rest : List Tag)
    (hnote : t.hasClassToken "note" = true) :
    (t.name = "p" → _parse_description (t :: rest) =
      .strs ["p", normalize_text t.innerText] :: _parse_description rest) ∧
    (t.name = "h4" → strContains t.innerText "URI" = true →
      _parse_description (t :: rest) = []) ∧
    (t.name = "h4" → strContains t.innerText "URI" = false →
      _parse_description (t :: rest) =
        .strs ["h4", normalize_text t.innerText] :: _parse_description rest) ∧
    (t.name = "table" →
      _parse_description (t :: rest) = _parse_table t :: _parse_description rest) ∧
    (t.name ≠ "p" → t.name ≠ "h4" → t.name ≠ "table" →
      _parse_description (t :: rest) = _parse_note t :: _parse_description rest) := by
  refine ⟨?_, ?_, ?_, ?_, ?_⟩
  · intro hp
    rw [parse_description_cons, if_pos hp]
  · intro hn hc
    rw [parse_description_cons,
      if_neg (fun hp => absurd (hn.symm.trans hp) (by decide)),
      if_pos ⟨hn, hc⟩]
  · intro hn hc
    rw [parse_description_cons,
      if_neg (fun hp => absurd (hn.symm.trans hp) (by decide)),
      if_neg (fun hand => absurd (hc.symm.trans hand.2) (by decide)),
      if_pos hn]
  · intro ht
    rw [parse_description_cons,
      if_neg (fun hp => absurd (ht.symm.trans hp) (by decide)),
      if_neg (fun hand => absurd (ht.symm.trans hand.1) (by decide)),
      if_neg (fun hh => absurd (ht.symm.trans hh) (by decide)),
      if_pos ht]
  · intro hp hh ht
    rw [parse_description_cons, if_neg hp, if_neg (fun hand => hh hand.1),
      if_neg hh, if_neg ht, if_pos hnote]

/-- A `note`-classed paragraph for the C10 witness. -/
def c10P : Tag := .mk "p" (some ["note"]) [] [.text "hi"]

/-- A `note`-classed stopping heading for the C10 witness. -/
def c10H : Tag := .mk "h4" (some ["note"]) [] [.text "URI here"]

/-- A `note`-classed table for the C10 witness. -/
def c10T : Tag := .mk "table" (some ["note"]) []
  [.tag (.mk "tr" none [] [.tag (.mk "td" none [] [.text "A"])])]

/-- A `note`-classed `div` for the C10 witness. -/
def c10D : Tag := .mk "div" (some ["note"]) [] [.text "n"]

theorem claim_C10_witness :
    _parse_description [c10P] = [.strs ["p", "hi"]] ∧
    _parse_description [c10H] = [] ∧
    _parse_description [c10T] = [.table [["A"]]] ∧
    _parse_description [c10D] = [.strs ["note", "n"]] :=
  ⟨((claim_C10 c10P [] (by decide)).1 rfl).trans (by decide),
   (claim_C10 c10H [] (by decide)).2.1 rfl (by decide),
   ((claim_C10 c10T [] (by decide)).2.2.2.1 rfl).trans (by decide),
   ((claim_C10 c10D [] (by decide)).2.2.2.2 (by decide) (by decide)
      (by decide)).trans (by decide)⟩

/-- C7: the note-classification test is token-set membership on the
(space-separated) class token list: `"note"` must be one of the tokens;
a token such as `"noted"` that merely contains `"note"` as a substring does
not match, and a missing `class` attribute never matches.  The last two
conjuncts show the test as `_parse_description` applies it. -/
theorem claim_C7 :
    (∀ (n : String) (tokens : List String) (a : List (String × String))
      (cs : List Node),
      (Tag.mk n (some tokens) a cs).hasClassToken "note" = true ↔ "note" ∈ tokens) ∧
    (∀ (n : String) (a : List (String × String)) (cs : List Node),
      (Tag.mk n none a cs).hasClassToken "note" = false) ∧
    (Tag.mk "div" (some ["noted"]) [] []).hasClassToken "note" = false ∧
    strContains "noted" "note" = true ∧
    _parse_description [Tag.mk "div" (some ["noted", "other"]) [] [.text "x"]] = [] ∧
    _parse_description [Tag.mk "div" (some ["other", "note"]) [] [.text "x"]]
      = [.strs ["note", "x"]] := by
  refine ⟨?_, ?_, by decide, by decide, by decide, by decide⟩
  · intro n tokens a cs
    simp [Tag.hasClassToken, Tag.classAttr]
  · intro n a cs
    simp [Tag.hasClassToken, Tag.classAttr]

/-! ## Lemmas about `_parse_endpoint` -/

theorem exists_cons_cons_of_not_lt_three {α : Type} (l : List α)
    (h : ¬ l.length < 3) : ∃ a b rest, l = a :: b :: rest := by
  match l with
  | [] => simp at h
  | [a] => simp at h
  | a :: b :: rest => exact ⟨a, b, rest, rfl⟩

/-- On a two-element slice the metadata extraction either succeeds or fails
with an `IndexError` — never with a `ValueError`. -/
theorem extract_metadata_two (a b : Tag) :
    (∃ t, _extract_endpoint_metadata [a, b] = .ok t) ∨
    _extract_endpoint_metadata [a, b] = .error .indexError := by
  simp only [_extract_endpoint_metadata]
  cases get_tags_only b.children with
  | nil => exact Or.inr rfl
  | cons c₀ tail =>
    cases tail with
    | nil => exact Or.inr rfl
    | cons c₁ tail₂ => exact Or.inl ⟨_, rfl⟩

/-- `_parse_endpoint` propagates a metadata-extraction failure. -/
theorem parse_endpoint_meta_error (endpoint : Tag)
    (endpoint_links : List (String × List (String × String)))
    (section_name : String)
    (h3 : ¬ (get_tags_only endpoint.children).length < 3) (e : PyErr)
    (hmeta : _extract_endpoint_metadata ((get_tags_only endpoint.children).take 2) =
      .error e) :
    _parse_endpoint endpoint endpoint_links section_name = .error e := by
  simp only [_parse_endpoint]
  rw [if_neg h3, hmeta]

/-- `_parse_endpoint` fails with a `KeyError` on the section name when the
navigation index has no entry for the section. -/
theorem parse_endpoint_sec_missing (endpoint : Tag)
    (endpoint_links : List (String × List (String × String)))
    (section_name ep_name ep_http_method ep_uri : String)
    (h3 : ¬ (get_tags_only endpoint.children).length < 3)
    (hmeta : _extract_endpoint_metadata ((get_tags_only endpoint.children).take 2) =
      .ok (ep_name, ep_http_method, ep_uri))
    (hd : dictGet? endpoint_links section_name = none) :
    _parse_endpoint endpoint endpoint_links section_name =
      .error (.keyError section_name) := by
  simp only [_parse_endpoint]
  rw [if_neg h3, hmeta]
  simp only [dictGetE, hd]

/-- `_parse_endpoint` fails with a `KeyError` on the endpoint name when the
section is indexed but the endpoint is not. -/
theorem parse_endpoint_ep_missing (endpoint : Tag)
    (endpoint_links : List (String × List (String × String)))
    (section_name ep_name ep_http_method ep_uri : String)
    (section_links : List (String × String))
    (h3 : ¬ (get_tags_only endpoint.children).length < 3)
    (hmeta : _extract_endpoint_metadata ((get_tags_only endpoint.children).take 2) =
      .ok (ep_name, ep_http_method, ep_uri))
    (hd : dictGet? endpoint_links section_name = some section_links)
    (hd₂ : dictGet? section_links ep_name = none) :
    _parse_endpoint endpoint endpoint_links section_name =
      .error (.keyError ep_name) := by
  simp only [_parse_endpoint]
  rw [if_neg h3, hmeta]
  simp only [dictGetE, hd, hd₂]

/-- `_parse_endpoint` on a fully indexed endpoint returns the record whose
`endpoint_link` is the navigation-index entry. -/
theorem parse_endpoint_found (endpoint : Tag)
    (endpoint_links : List (String × List (String × String)))
    (section_name ep_name ep_http_method ep_uri v : String)
    (section_links : List (String × String))
    (h3 : ¬ (get_tags_only endpoint.children).length < 3)
    (hmeta : _extract_endpoint_metadata ((get_tags_only endpoint.children).take 2) =
      .ok (ep_name, ep_http_method, ep_uri))
    (hd : dictGet? endpoint_links section_name = some section_links)
    (hd₂ : dictGet? section_links ep_name = some v) :
    _parse_endpoint endpoint endpoint_links section_name =
      .ok (ep_name, EndpointData.mk v ep_http_method ep_uri
        (_parse_description ((get_tags_only endpoint.children).drop 2))) := by
  simp only [_parse_endpoint]
  rw [if_neg h3, hmeta]
  simp only [dictGetE, hd, hd₂]

/-- C1: `_parse_endpoint` fails with the "insufficient endpoint structure"
`ValueError` exactly on blocks with fewer than three element children; with
three or more it never raises any `ValueError` (in particular it never
returns a partial record in the short case, since it returns the error). -/
theorem claim_C1 (endpoint : Tag)
    (endpoint_links : List (String × List (String × String)))
    (section_name : String) :
    ((get_tags_only endpoint.children).length < 3 →
      _parse_endpoint endpoint endpoint_links section_name =
        .error (.valueError "Not enough elements to parse endpoint")) ∧
    (∀ m : String, _parse_endpoint endpoint endpoint_links section_name =
        .error (.valueError m) → (get_tags_only endpoint.children).length < 3) := by
  constructor
  · intro h
    simp only [_parse_endpoint]
    rw [if_pos h]
  · intro m heq
    by_cases h : (get_tags_only endpoint.children).length < 3
    · exact h
    · exfalso
      obtain ⟨a, b, rest, hlist⟩ :=
        exists_cons_cons_of_not_lt_three (get_tags_only endpoint.children) h
      have htake : (get_tags_only endpoint.children).take 2 = [a, b] := by
        rw [hlist]; rfl
      rcases extract_metadata_two a b with ⟨⟨n, mm, u⟩, hmeta⟩ | hmeta
      · rw [← htake] at hmeta
        cases hd : dictGet? endpoint_links section_name with
        | none =>
          rw [parse_endpoint_sec_missing endpoint endpoint_links section_name
            n mm u h hmeta hd] at heq
          exact PyErr.noConfusion (Except.error.inj heq)
        | some section_links =>
          cases hd₂ : dictGet? section_links n with
          | none =>
            rw [parse_endpoint_ep_missing endpoint endpoint_links section_name
              n mm u section_links h hmeta hd hd₂] at heq
            exact PyErr.noConfusion (Except.error.inj heq)
          | some v =>
            rw [parse_endpoint_found endpoint endpoint_links section_name
              n mm u v section_links h hmeta hd hd₂] at heq
            exact Except.noConfusion heq
      · rw [← htake] at hmeta
        rw [parse_endpoint_meta_error endpoint endpoint_links section_name
          h .indexError hmeta] at heq
        exact PyErr.noConfusion (Except.error.inj heq)

/-- An endpooint block with only two element children, for the C1 witness. -/
def c1Short : Tag := .mk "div" (some ["action"]) []
  [.tag (.mk "h3" none [] [.text "N"]), .tag (.mk "div" none [] [])]

theorem claim_C1_witness :
    _parse_endpoint c1Short [] "S" =
      .error (.valueError "Not enough elements to parse endpoint") :=
  (claim_C1 c1Short [] "S").1 (by decide)

/-- C4: with enough children and extractable metadata, a missing
`navigationIndex[sectionName][endpointName]` entry makes `_parse_endpoint`
fail with a `KeyError` (a Python `LookupError`), and when the entry exists
the recorded `endpoint_link` is exactly that entry. -/
theorem claim_C4 (endpoint : Tag)
    (endpoint_links : List (String × List (String × String)))
    (section_name ep_name ep_http_method ep_uri : String)
    (h3 : ¬ (get_tags_only endpoint.children).length < 3)
    (hmeta : _extract_endpoint_metadata ((get_tags_only endpoint.children).take 2) =
      .ok (ep_name, ep_http_method, ep_uri)) :
    (dictGet2? endpoint_links section_name ep_name = none →
      ∃ k, _parse_endpoint endpoint endpoint_links section_name =
        .error (.keyError k) ∧ (PyErr.keyError k).isLookupError = true) ∧
    (∀ v, dictGet2? endpoint_links section_name ep_name = some v →
      _parse_endpoint endpoint endpoint_links section_name =
        .ok (ep_name, EndpointData.mk v ep_http_method ep_uri
          (_parse_description ((get_tags_only endpoint.children).drop 2)))) := by
  constructor
  · intro hmiss
    cases hd : dictGet? endpoint_links section_name with
    | none =>
      exact ⟨section_name,
        parse_endpoint_sec_missing endpoint endpoint_links section_name
          ep_name ep_http_method ep_uri h3 hmeta hd, rfl⟩
    | some section_links =>
      simp only [dictGet2?, hd] at hmiss
      exact ⟨ep_name,
        parse_endpoint_ep_missing endpoint endpoint_links section_name
          ep_name ep_http_method ep_uri section_links h3 hmeta hd hmiss, rfl⟩
  · intro v hv
    cases hd : dictGet? endpoint_links section_name with
    | none =>
      simp only [dictGet2?, hd] at hv
      exact Option.noConfusion hv
    | some section_links =>
      simp only [dictGet2?, hd] at hv
      exact parse_endpoint_found endpoint endpoint_links section_name
        ep_name ep_http_method ep_uri v section_links h3 hmeta hd hv

/-- An endpoint block with three element children, for the C4 witness. -/
def c4Endpoint : Tag := .mk "div" (some ["action"]) []
  [.tag (.mk "h3" none [] [.text "Create"]),
   .tag (.mk "div" none []
     [.tag (.mk "span" none [] [.text "GET"]),
      .tag (.mk "code" none [] [.text "/x"])]),
   .tag (.mk "p" none [] [.text "descr"])]

theorem claim_C4_witness :
    (∃ k, _parse_endpoint c4Endpoint [] "S" = .error (.keyError k) ∧
      (PyErr.keyError k).isLookupError = true) ∧
    _parse_endpoint c4Endpoint [("S", [("Create", "L")])] "S" =
      .ok ("Create", EndpointData.mk "L" "GET" "/x"
        (_parse_description ((get_tags_only c4Endpoint.children).drop 2))) :=
  ⟨(claim_C4 c4Endpoint [] "S" "Create" "GET" "/x" (by decide) (by rfl)).1 rfl,
   (claim_C4 c4Endpoint [("S", [("Create", "L")])] "S" "Create" "GET" "/x"
      (by decide) (by rfl)).2 "L" rfl⟩

/-- C5: every `ParseResult` the top-level run produces is mutually
exclusive: a success carries `data` and neither `error` nor `traceback`;
a failure carries `error` and `traceback` and no `data`. -/
theorem claim_C5 (urljoin : String → String → String)
    (format_exc base_url : String) (outcome : FetchOutcome) :
    (∃ d, get_parsed_api_data urljoin format_exc base_url outcome =
        { data := some d, error := none, traceback := none }) ∨
    (∃ e tb, get_parsed_api_data urljoin format_exc base_url outcome =
        { data := none, error := some e, traceback := some tb }) := by
  cases outcome with
  | requestError m =>
    exact Or.inr ⟨"Network error: " ++ m, format_exc, rfl⟩
  | page soup =>
    cases hp : tryBlockBody urljoin base_url soup with
    | ok d =>
      refine Or.inl ⟨d, ?_⟩
      simp only [get_parsed_api_data, hp]
    | error e =>
      refine Or.inr ⟨exceptMessage e, format_exc, ?_⟩
      simp only [get_parsed_api_data, hp]
      rfl

/-! ## C8: table extraction -/

/-- Table extraction as C8 words it: rows enumerated from the table's CHILD
row elements, cells from each row's CHILD cell elements.  Stated only for
comparison with `_parse_table`, which searches with `find_all`
(all descendants). -/
def parse_table_childRows (table : Tag) : DescItem :=
  .table (((get_tags_only table.children).filter (fun r => r.name = "tr")).map
    (fun row => ((get_tags_only row.children).filter
        (fun c => c.name = "td" || c.name = "th")).map
      (fun cell => normalize_text cell.innerText)))

/-- A table whose single row sits inside a `tbody` wrapper: the row is a
descendant but not a child of the table element. -/
def c8Table : Tag := .mk "table" none []
  [.tag (.mk "tbody" none []
    [.tag (.mk "tr" none [] [.tag (.mk "td" none [] [.text "A"])])])]

/-- C8 counterexample: `_parse_table` keeps the `tbody`-wrapped row, because
`find_all("tr")` searches descendants, while enumerating the table's child
row elements — as the claim states — yields no rows, so the claim's
description of the row enumeration is false of the code. -/
theorem claim_C8_counterexample :
    _parse_table c8Table = .table [["A"]] ∧
    parse_table_childRows c8Table = .table [] ∧
    _parse_table c8Table ≠ parse_table_childRows c8Table := by decide

theorem get_tags_only_map_tag (ts : List Tag) :
    get_tags_only (ts.map Node.tag) = ts := by
  induction ts with
  | nil => rfl
  | cons t ts ih =>
    simp only [List.map_cons, get_tags_only, List.filterMap_cons] at ih ⊢
    rw [ih]

theorem contains_td_th (u : Tag) :
    (["td", "th"].contains u.name)
      = (decide (u.name = "td") || decide (u.name = "th")) := by
  by_cases h1 : u.name = "td" <;> by_cases h2 : u.name = "th" <;> simp [h1, h2]

/-- C8 (amended): the emitted rows are the table's DESCENDANT row elements
in document order; each row's cells are the row's descendant `td`/`th`
elements in order, each cell's text normalized; ragged rows are kept
unvalidated; and the claim's concrete example evaluates as stated. -/
theorem claim_C8_amended :
    (∀ table : Tag, _parse_table table =
      .table ((table.descTags.filter (fun r => r.name = "tr")).map
        (fun row => ((row.descTags.filter
            (fun c => c.name = "td" || c.name = "th")).map
          (fun cell => normalize_text cell.innerText))))) ∧
    _parse_description [Tag.mk "p" none [] [.text "Hello"],
      Tag.mk "h4" none [] [.text "Notes"],
      Tag.mk "table" none [] [.tag (.mk "tr" none []
        [.tag (.mk "td" none [] [.text "A"]),
         .tag (.mk "td" none [] [.text "B"])])]] =
      [.strs ["p", "Hello"], .strs ["h4", "Notes"], .table [["A", "B"]]] ∧
    _parse_table (Tag.mk "table" none []
      [.tag (.mk "tr" none [] [.tag (.mk "td" none [] [.text "A"])]),
       .tag (.mk "tr" none [] [.tag (.mk "th" none [] [.text "B"]),
         .tag (.mk "td" none [] [.text "C"])])]) = .table [["A"], ["B", "C"]] := by
  refine ⟨?_, by decide, by decide⟩
  intro table
  have hpred : (fun u : Tag => ["td", "th"].contains u.name)
      = (fun u : Tag => decide (u.name = "td") || decide (u.name = "th")) :=
    funext contains_td_th
  simp only [_parse_table, Tag.findAllNames, Tag.findAllName,
    get_tags_only_map_tag, hpred]

/-! ## Last-write-wins dictionary lookups -/

/-- The value of the last pair with the given key, in list order — the
specification's "value from the last occurrence in document order". -/
def lastOcc {α : Type} (ps : List (String × α)) (k : String) : Option α :=
  (ps.reverse.find? (fun p => p.1 = k)).map Prod.snd

theorem dictGet?_cons {α : Type} (p : String × α) (rest : List (String × α))
    (k : String) :
    dictGet? (p :: rest) k = if p.1 = k then some p.2 else dictGet? rest k := by
  by_cases h : p.1 = k <;> simp [dictGet?, List.find?_cons, h]

theorem dictGet?_dictInsert {α : Type} (d : List (String × α)) (k k₂ : String)
    (v : α) :
    dictGet? (dictInsert d k v) k₂ = if k = k₂ then some v else dictGet? d k₂ := by
  induction d with
  | nil =>
    by_cases h : k = k₂ <;> simp [dictInsert, dictGet?, List.find?_cons, h]
  | cons p rest ih =>
    obtain ⟨k₃, v₃⟩ := p
    by_cases h₃ : k₃ = k
    · subst h₃
      rw [show dictInsert ((k₃, v₃) :: rest) k₃ v = (k₃, v) :: rest by
        simp [dictInsert]]
      rw [dictGet?_cons, dictGet?_cons]
      by_cases h : k₃ = k₂ <;> simp [h]
    · rw [show dictInsert ((k₃, v₃) :: rest) k v = (k₃, v₃) :: dictInsert rest k v by
        simp [dictInsert, h₃]]
      rw [dictGet?_cons, ih, dictGet?_cons]
      by_cases h : k₃ = k₂
      · subst h
        rw [if_pos rfl, if_neg (fun hk => h₃ hk.symm)]
        simp
      · rw [if_neg h, if_neg h]

theorem dictGet?_foldl_insert {α : Type} :
    ∀ (ps : List (String × α)) (d : List (String × α)) (k : String),
    dictGet? (ps.foldl (fun acc p => dictInsert acc p.1 p.2) d) k =
      match ps.reverse.find? (fun p => p.1 = k) with
      | some p => some p.2
      | none => dictGet? d k := by
  intro ps
  induction ps with
  | nil => intro d k; rfl
  | cons p ps ih =>
    intro d k
    rw [List.foldl_cons, ih, List.reverse_cons, List.find?_append]
    cases hf : ps.reverse.find? (fun q => q.1 = k) with
    | some q => simp [hf]
    | none =>
      rw [dictGet?_dictInsert]
      by_cases h : p.1 = k <;> simp [hf, List.find?, h]

/-- Looking a key up in `dict(pairs)` yields the value of the key's last
occurrence among the pairs. -/
theorem dictGet?_pyDict {α : Type} (ps : List (String × α)) (k : String) :
    dictGet? (pyDict ps) k = lastOcc ps k := by
  show dictGet? (ps.foldl (fun acc p => dictInsert acc p.1 p.2) []) k = _
  rw [dictGet?_foldl_insert]
  unfold lastOcc
  cases ps.reverse.find? (fun p => p.1 = k) <;> simp [dictGet?]

/-! ## C3: the navigation index -/

/-- A resource-action link whose visible text needs normalization (leading
and trailing blanks and a pilcrow). -/
def c3Link : Tag := .mk "a" (some ["rg-r-a-link"]) [("href", "#x")] [.text "  a ¶ "]

/-- The group-label link of the C3 examples. -/
def c3Label : Tag := .mk "a" (some ["rg-link"]) [] [.text "G"]

/-- A resource group holding the group label `c3Label` and `c3Link`. -/
def c3Group : Tag := .mk "div" (some ["resource-group"]) []
  [.tag c3Label, .tag c3Link]

/-- A navigation root holding `c3Group`. -/
def c3Nav : Tag := .mk "nav" none [] [.tag c3Group]

/-- C3 counterexample: the key recorded for a resource-action link is the
link's RAW visible text, not its normalized text.  With link text
`"  a ¶ "` (normalized: `"a"`), the navigation index maps the group label
to a dict whose only key is `"  a ¶ "`; looking up the normalized text
fails, so the claim as stated is false of the code. -/
theorem claim_C3_counterexample :
    normalize_text c3Link.innerText = "a" ∧
    _parse_resource_group_data (fun b r => b ++ r) c3Group "B" =
      .ok [("  a ¶ ", "B#x")] ∧
    _parse_navigation_structure (fun b r => b ++ r) c3Nav "B" =
      .ok [("G", [("  a ¶ ", "B#x")])] ∧
    dictGet? [("  a ¶ ", "B#x")] (normalize_text c3Link.innerText) = none ∧
    dictGet? [("  a ¶ ", "B#x")] c3Link.innerText = some "B#x" := by decide

theorem exceptMap_hrefs (urljoin : String → String → String) (base_url : String)
    (ls : List Tag) (h : ∀ l ∈ ls, (l.attrGet "href").isSome = true) :
    exceptMap (fun l =>
      match l.attrGet "href" with
      | some href => Except.ok (l.innerText, urljoin base_url href)
      | none => Except.error (PyErr.keyError "href")) ls =
    .ok (ls.map (fun l => (l.innerText, urljoin base_url ((l.attrGet "href").getD "")))) := by
  induction ls with
  | nil => rfl
  | cons l ls ih =>
    obtain ⟨href, hhref⟩ :=
      Option.isSome_iff_exists.mp (h l (List.mem_cons_self l ls))
    simp only [exceptMap, hhref,
      ih (fun x hx => h x (List.mem_cons_of_mem l hx)), List.map_cons,
      Option.getD_some]

/-- The resource-action links of a group, as `_parse_resource_group_data`
enumerates them. -/
def rgActionLinks (group : Tag) : List Tag :=
  get_tags_only ((group.findAllClass "rg-r-a-link").map Node.tag)

/-- The pairs the amended C3 says a group contributes: each resource-action
link's raw visible text paired with its `href` resolved against the base
URL. -/
def groupLinkPairs (urljoin : String → String → String) (base_url : String)
    (group : Tag) : List (String × String) :=
  (rgActionLinks group).map
    (fun l => (l.innerText, urljoin base_url ((l.attrGet "href").getD "")))

/-- On success, the link comprehension forces every link to carry an `href`
and returns exactly the raw-text/joined-href pairs in document order. -/
theorem exceptMap_hrefs_ok (urljoin : String → String → String)
    (base_url : String) :
    ∀ (ls : List Tag) (pairs : List (String × String)),
    exceptMap (fun l =>
      match l.attrGet "href" with
      | some href => Except.ok (l.innerText, urljoin base_url href)
      | none => Except.error (PyErr.keyError "href")) ls = .ok pairs →
    (∀ l ∈ ls, (l.attrGet "href").isSome = true) ∧
    pairs = ls.map (fun l =>
      (l.innerText, urljoin base_url ((l.attrGet "href").getD ""))) := by
  intro ls
  induction ls with
  | nil =>
    intro pairs h
    refine ⟨by simp, ?_⟩
    simpa using (Except.ok.inj h).symm
  | cons l ls ih =>
    intro pairs h
    cases hh : l.attrGet "href" with
    | none =>
      simp only [exceptMap, hh] at h
      exact Except.noConfusion h
    | some href =>
      simp only [exceptMap, hh] at h
      cases hm : exceptMap (fun l₂ =>
          match l₂.attrGet "href" with
          | some href₂ => Except.ok (l₂.innerText, urljoin base_url href₂)
          | none => Except.error (PyErr.keyError "href")) ls with
      | error e =>
        simp only [hm] at h
        exact Except.noConfusion h
      | ok ps =>
        simp only [hm] at h
        obtain ⟨hall, hps⟩ := ih ps hm
        refine ⟨?_, ?_⟩
        · intro x hx
          rcases List.mem_cons.mp hx with hx | hx
          · subst hx; simp [hh]
          · exact hall x hx
        · rw [← Except.ok.inj h, List.map_cons, hps, hh, Option.getD_some]

/-- A successful group parse forces every resource-action link to carry an
`href` and returns exactly the dict of the per-link raw-text/joined-href
pairs. -/
theorem parse_resource_group_data_ok (urljoin : String → String → String)
    (group : Tag) (base_url : String) (d : List (String × String))
    (h : _parse_resource_group_data urljoin group base_url = .ok d) :
    (∀ l ∈ rgActionLinks group, (l.attrGet "href").isSome = true) ∧
    d = pyDict (groupLinkPairs urljoin base_url group) := by
  cases hm : exceptMap (fun rg_r_a_link =>
      match rg_r_a_link.attrGet "href" with
      | some href => Except.ok (rg_r_a_link.innerText, urljoin base_url href)
      | none => Except.error (PyErr.keyError "href"))
      (get_tags_only ((group.findAllClass "rg-r-a-link").map Node.tag)) with
  | error e =>
    rw [show _parse_resource_group_data urljoin group base_url = .error e by
      simp only [_parse_resource_group_data, hm]] at h
    exact Except.noConfusion h
  | ok pairs =>
    rw [show _parse_resource_group_data urljoin group base_url = .ok (pyDict pairs) by
      simp only [_parse_resource_group_data, hm]] at h
    obtain ⟨hall, hpairs⟩ := exceptMap_hrefs_ok urljoin base_url _ pairs hm
    refine ⟨hall, ?_⟩
    rw [← Except.ok.inj h, hpairs]
    simp only [groupLinkPairs, rgActionLinks]

/-- The pairs the navigation loop collects: for each group with an
`rg-link`, the label's raw text paired with the parsed group dict; a group
parse failure propagates, an unlabelled group is skipped. -/
def navPairsE (urljoin : String → String → String) (base_url : String) :
    List Tag → Except PyErr (List (String × List (String × String)))
  | [] => .ok []
  | group :: rest =>
    match group.findClass "rg-link" with
    | none => navPairsE urljoin base_url rest
    | some rg_link =>
      match _parse_resource_group_data urljoin group base_url with
      | .error e => .error e
      | .ok d =>
        match navPairsE urljoin base_url rest with
        | .error e => .error e
        | .ok ps => .ok ((rg_link.innerText, d) :: ps)

/-- The navigation loop is the fold of `dictInsert` over the collected
label/group-dict pairs. -/
theorem navLoop_eq (urljoin : String → String → String) (base_url : String) :
    ∀ (gs : List Tag) (d : List (String × List (String × String))),
    navLoop urljoin base_url gs d =
      match navPairsE urljoin base_url gs with
      | .error err => .error err
      | .ok pairs => .ok (pairs.foldl (fun acc p => dictInsert acc p.1 p.2) d) := by
  intro gs
  induction gs with
  | nil => intro d; rfl
  | cons g gs ih =>
    intro d
    cases hl : g.findClass "rg-link" with
    | none =>
      rw [show navLoop urljoin base_url (g :: gs) d = navLoop urljoin base_url gs d by
        simp [navLoop, hl]]
      rw [ih d]
      simp only [navPairsE, hl]
    | some rg_link =>
      cases hg : _parse_resource_group_data urljoin g base_url with
      | error err => simp [navLoop, navPairsE, hl, hg]
      | ok d₂ =>
        rw [show navLoop urljoin base_url (g :: gs) d
            = navLoop urljoin base_url gs (dictInsert d rg_link.innerText d₂) by
          simp [navLoop, hl, hg]]
        rw [ih (dictInsert d rg_link.innerText d₂)]
        simp only [navPairsE, hl, hg]
        cases hp : navPairsE urljoin base_url gs with
        | error err => rfl
        | ok pairs => rfl

/-- On success, every group with a group-label link parsed to exactly the
dict of its per-link pairs, and the collected pairs are the labelled
groups' (label raw text, group dict) pairs in document order. -/
theorem navPairsE_ok (urljoin : String → String → String) (base_url : String) :
    ∀ (gs : List Tag) (pairs : List (String × List (String × String))),
    navPairsE urljoin base_url gs = .ok pairs →
    (∀ g ∈ gs, ∀ lbl, g.findClass "rg-link" = some lbl →
      _parse_resource_group_data urljoin g base_url =
        .ok (pyDict (groupLinkPairs urljoin base_url g))) ∧
    pairs = gs.filterMap (fun g => (g.findClass "rg-link").map (fun lbl =>
      (lbl.innerText, pyDict (groupLinkPairs urljoin base_url g)))) := by
  intro gs
  induction gs with
  | nil =>
    intro pairs h
    refine ⟨by simp, ?_⟩
    simpa using (Except.ok.inj h).symm
  | cons g gs ih =>
    intro pairs h
    cases hl : g.findClass "rg-link" with
    | none =>
      simp only [navPairsE, hl] at h
      obtain ⟨hrec, hpair⟩ := ih pairs h
      refine ⟨?_, ?_⟩
      · intro g₂ hg₂ lbl hlbl
        rcases List.mem_cons.mp hg₂ with hg₂ | hg₂
        · subst hg₂
          rw [hl] at hlbl
          exact Option.noConfusion hlbl
        · exact hrec g₂ hg₂ lbl hlbl
      · rw [List.filterMap_cons]
        simp only [hl, Option.map_none']
        exact hpair
    | some lbl =>
      simp only [navPairsE, hl] at h
      cases hg : _parse_resource_group_data urljoin g base_url with
      | error e =>
        simp only [hg] at h
        exact Except.noConfusion h
      | ok d =>
        simp only [hg] at h
        cases hp : navPairsE urljoin base_url gs with
        | error e =>
          simp only [hp] at h
          exact Except.noConfusion h
        | ok ps =>
          simp only [hp] at h
          obtain ⟨hrec, hpair⟩ := ih ps hp
          obtain ⟨hall, hd⟩ := parse_resource_group_data_ok urljoin g base_url d hg
          refine ⟨?_, ?_⟩
          · intro g₂ hg₂ lbl₂ hlbl₂
            rcases List.mem_cons.mp hg₂ with hg₂ | hg₂
            · subst hg₂
              rw [hg, hd]
            · exact hrec g₂ hg₂ lbl₂ hlbl₂
          · rw [← Except.ok.inj h, List.filterMap_cons]
            simp only [hl, Option.map_some']
            rw [hpair, hd]

/-- A successful navigation parse is `pyDict` of the collected pairs. -/
theorem parse_navigation_structure_ok (urljoin : String → String → String)
    (nav : Tag) (base_url : String)
    (m : List (String × List (String × String)))
    (h : _parse_navigation_structure urljoin nav base_url = .ok m) :
    ∃ pairs, navPairsE urljoin base_url
        (get_tags_only ((nav.findAllClass "resource-group").map Node.tag)) = .ok pairs ∧
      m = pyDict pairs := by
  cases hp : navPairsE urljoin base_url
      (get_tags_only ((nav.findAllClass "resource-group").map Node.tag)) with
  | error e =>
    rw [show _parse_navigation_structure urljoin nav base_url = .error e by
      simp only [_parse_navigation_structure, navLoop_eq, hp]] at h
    exact Except.noConfusion h
  | ok pairs =>
    rw [show _parse_navigation_structure urljoin nav base_url = .ok (pyDict pairs) by
      simp only [_parse_navigation_structure, navLoop_eq, hp, pyDict]] at h
    exact ⟨pairs, rfl, (Except.ok.inj h).symm⟩

/-- C3 (amended): on the successful run that builds the navigation index,
every resource group with a group-label link is recorded: each of its
resource-action links carries an `href` and contributes an entry whose key
is the link's RAW visible text (whitespace and pilcrow preserved, no
normalization applied) and whose value is that `href` resolved against the
base URL by `urljoin`; the group's recorded dict is exactly these per-link
entries in document order (later duplicates overwriting earlier ones) and
holds an entry under each contained link's raw text; and the index maps
the labels' raw texts to these group dicts, over the labelled groups in
document order. -/
theorem claim_C3_amended (urljoin : String → String → String)
    (nav : Tag) (base_url : String)
    (m : List (String × List (String × String)))
    (hnav : _parse_navigation_structure urljoin nav base_url = .ok m) :
    (∀ g ∈ get_tags_only ((nav.findAllClass "resource-group").map Node.tag),
      ∀ lbl, g.findClass "rg-link" = some lbl →
      (∀ l ∈ rgActionLinks g, (l.attrGet "href").isSome = true) ∧
      _parse_resource_group_data urljoin g base_url =
        .ok (pyDict (groupLinkPairs urljoin base_url g)) ∧
      (∀ l ∈ rgActionLinks g,
        ∃ v, dictGet? (pyDict (groupLinkPairs urljoin base_url g))
          l.innerText = some v)) ∧
    m = pyDict
      ((get_tags_only ((nav.findAllClass "resource-group").map Node.tag)).filterMap
        (fun g => (g.findClass "rg-link").map (fun lbl =>
          (lbl.innerText, pyDict (groupLinkPairs urljoin base_url g))))) := by
  obtain ⟨pairs, hp, hm⟩ := parse_navigation_structure_ok urljoin nav base_url m hnav
  obtain ⟨hrec, hpairs⟩ := navPairsE_ok urljoin base_url _ pairs hp
  constructor
  · intro g hg lbl hlbl
    have hgok := hrec g hg lbl hlbl
    obtain ⟨hall, _⟩ := parse_resource_group_data_ok urljoin g base_url _ hgok
    refine ⟨hall, hgok, ?_⟩
    intro l hl
    rw [dictGet?_pyDict]
    have hmem : (l.innerText, urljoin base_url ((l.attrGet "href").getD ""))
        ∈ groupLinkPairs urljoin base_url g := by
      simp only [groupLinkPairs]
      exact List.mem_map_of_mem _ hl
    have hsome : ((groupLinkPairs urljoin base_url g).reverse.find?
        (fun p => p.1 = l.innerText)).isSome := by
      rw [List.find?_isSome]
      exact ⟨_, List.mem_reverse.mpr hmem, by simp⟩
    obtain ⟨q, hq⟩ := Option.isSome_iff_exists.mp hsome
    exact ⟨q.2, by simp only [lastOcc, hq, Option.map_some']⟩
  · rw [hm, hpairs]

theorem claim_C3_amended_witness :
    _parse_resource_group_data (fun b r => b ++ r) c3Group "B" =
      .ok (pyDict (groupLinkPairs (fun b r => b ++ r) "B" c3Group)) ∧
    (∃ v, dictGet? (pyDict (groupLinkPairs (fun b r => b ++ r) "B" c3Group))
        c3Link.innerText = some v) ∧
    [("G", [("  a ¶ ", "B#x")])] = pyDict
      ((get_tags_only ((c3Nav.findAllClass "resource-group").map Node.tag)).filterMap
        (fun g => (g.findClass "rg-link").map (fun lbl =>
          (lbl.innerText, pyDict (groupLinkPairs (fun b r => b ++ r) "B" g))))) :=
  have H := claim_C3_amended (fun b r => b ++ r) c3Nav "B"
    [("G", [("  a ¶ ", "B#x")])] (by decide)
  have hgmem : c3Group ∈
      get_tags_only ((c3Nav.findAllClass "resource-group").map Node.tag) :=
    List.Mem.head _
  have hlmem : c3Link ∈ rgActionLinks c3Group := List.Mem.head _
  ⟨(H.1 c3Group hgmem c3Label rfl).2.1,
   (H.1 c3Group hgmem c3Label rfl).2.2 c3Link hlmem,
   H.2⟩

/-! ## C9: last-write-wins dictionaries -/

/-- The section loop is the fold of `dictInsert` over the successfully
parsed endpoint pairs. -/
theorem sectionLoop_eq (links : List (String × List (String × String)))
    (sname : String) :
    ∀ (es : List Tag) (d : List (String × EndpointData)),
    sectionLoop links sname es d =
      match exceptMap (fun e => _parse_endpoint e links sname) es with
      | .error err => .error err
      | .ok pairs => .ok (pairs.foldl (fun acc p => dictInsert acc p.1 p.2) d) := by
  intro es
  induction es with
  | nil => intro d; rfl
  | cons e es ih =>
    intro d
    cases hf : _parse_endpoint e links sname with
    | error err => simp [sectionLoop, exceptMap, hf]
    | ok p =>
      obtain ⟨n, v⟩ := p
      rw [show sectionLoop links sname (e :: es) d
          = sectionLoop links sname es (dictInsert d n v) by
        simp [sectionLoop, hf]]
      rw [ih (dictInsert d n v)]
      simp only [exceptMap, hf]
      cases hm : exceptMap (fun e₂ => _parse_endpoint e₂ links sname) es with
      | error err => rfl
      | ok pairs => rfl

/-- The catalogue loop is the fold of `dictInsert` over the successfully
parsed section pairs. -/
theorem catalogLoop_eq (links : List (String × List (String × String))) :
    ∀ (ss : List Tag) (d : List (String × List (String × EndpointData))),
    catalogLoop links ss d =
      match exceptMap (fun s => _parse_section s links) ss with
      | .error err => .error err
      | .ok pairs => .ok (pairs.foldl (fun acc p => dictInsert acc p.1 p.2) d) := by
  intro ss
  induction ss with
  | nil => intro d; rfl
  | cons s ss ih =>
    intro d
    cases hf : _parse_section s links with
    | error err => simp [catalogLoop, exceptMap, hf]
    | ok p =>
      obtain ⟨n, v⟩ := p
      rw [show catalogLoop links (s :: ss) d
          = catalogLoop links ss (dictInsert d n v) by
        simp [catalogLoop, hf]]
      rw [ih (dictInsert d n v)]
      simp only [exceptMap, hf]
      cases hm : exceptMap (fun s₂ => _parse_section s₂ links) ss with
      | error err => rfl
      | ok pairs => rfl

/-- Unfolding `_parse_section` when the heading and every endpoint parse. -/
theorem parse_section_unfold (sec : Tag)
    (links : List (String × List (String × String))) (sname : String)
    (pairs : List (String × EndpointData))
    (hn : _get_section_name sec = .ok sname)
    (hm : exceptMap (fun e => _parse_endpoint e links sname)
      (get_tags_only ((sec.findAllClass "action").map Node.tag)) = .ok pairs) :
    _parse_section sec links = .ok (sname, pyDict pairs) := by
  simp only [_parse_section, hn, sectionLoop_eq, hm, pyDict]

/-- Unfolding `_get_okdesk_api_data` when every section parses. -/
theorem get_okdesk_api_data_unfold (content : Tag)
    (links : List (String × List (String × String)))
    (pairs : List (String × List (String × EndpointData)))
    (hm : exceptMap (fun s => _parse_section s links)
      (get_tags_only ((content.findAllName "section").map Node.tag)) = .ok pairs) :
    _get_okdesk_api_data content links = .ok (pyDict pairs) := by
  simp only [_get_okdesk_api_data, catalogLoop_eq, hm, pyDict]

/-- C9: overwrite-on-duplicate is the uniform collision policy.  Looking up
a key in any `dict` built by the model's accumulations yields the value of
the key's last occurrence in document order, because each accumulation —
the navigation group's `dict(pairs)`, a section's endpoint dict, and the
catalogue's section dict — is `pyDict` of its document-order pairs. -/
theorem claim_C9 :
    (∀ (α : Type) (ps : List (String × α)) (k : String),
      dictGet? (pyDict ps) k = lastOcc ps k) ∧
    (∀ (sec : Tag) (links : List (String × List (String × String)))
      (name : String) (d : List (String × EndpointData)),
      _parse_section sec links = .ok (name, d) →
      ∃ pairs, exceptMap (fun e => _parse_endpoint e links name)
          (get_tags_only ((sec.findAllClass "action").map Node.tag)) = .ok pairs ∧
        d = pyDict pairs) ∧
    (∀ (content : Tag) (links : List (String × List (String × String)))
      (m : List (String × List (String × EndpointData))),
      _get_okdesk_api_data content links = .ok m →
      ∃ pairs, exceptMap (fun s => _parse_section s links)
          (get_tags_only ((content.findAllName "section").map Node.tag)) = .ok pairs ∧
        m = pyDict pairs) ∧
    (∀ (urljoin : String → String → String) (group : Tag) (base_url : String)
      (d : List (String × String)),
      _parse_resource_group_data urljoin group base_url = .ok d →
      ∃ pairs, exceptMap (fun l =>
          match l.attrGet "href" with
          | some href => Except.ok (l.innerText, urljoin base_url href)
          | none => Except.error (PyErr.keyError "href"))
          (get_tags_only ((group.findAllClass "rg-r-a-link").map Node.tag)) = .ok pairs ∧
        d = pyDict pairs) := by
  refine ⟨fun α ps k => dictGet?_pyDict ps k, ?_, ?_, ?_⟩
  · intro sec links name d hsec
    cases hn : _get_section_name sec with
    | error e =>
      rw [show _parse_section sec links = .error e by
        simp only [_parse_section, hn]] at hsec
      exact Except.noConfusion hsec
    | ok sname =>
      cases hm : exceptMap (fun e => _parse_endpoint e links sname)
          (get_tags_only ((sec.findAllClass "action").map Node.tag)) with
      | error e =>
        rw [show _parse_section sec links = .error e by
          simp only [_parse_section, hn, sectionLoop_eq, hm]] at hsec
        exact Except.noConfusion hsec
      | ok pairs =>
        rw [parse_section_unfold sec links sname pairs hn hm] at hsec
        obtain ⟨h₁, h₂⟩ := Prod.mk.injEq _ _ _ _ |>.mp (Except.ok.inj hsec)
        subst h₁
        exact ⟨pairs, hm, h₂.symm⟩
  · intro content links m hm₀
    cases hm : exceptMap (fun s => _parse_section s links)
        (get_tags_only ((content.findAllName "section").map Node.tag)) with
    | error e =>
      rw [show _get_okdesk_api_data content links = .error e by
        simp only [_get_okdesk_api_data, catalogLoop_eq, hm]] at hm₀
      exact Except.noConfusion hm₀
    | ok pairs =>
      rw [get_okdesk_api_data_unfold content links pairs hm] at hm₀
      exact ⟨pairs, rfl, (Except.ok.inj hm₀).symm⟩
  · intro urljoin group base_url d hd₀
    cases hm : exceptMap (fun l =>
        match l.attrGet "href" with
        | some href => Except.ok (l.innerText, urljoin base_url href)
        | none => Except.error (PyErr.keyError "href"))
        (get_tags_only ((group.findAllClass "rg-r-a-link").map Node.tag)) with
    | error e =>
      rw [show _parse_resource_group_data urljoin group base_url = .error e by
        simp only [_parse_resource_group_data, hm]] at hd₀
      exact Except.noConfusion hd₀
    | ok pairs =>
      rw [show _parse_resource_group_data urljoin group base_url = .ok (pyDict pairs) by
        simp only [_parse_resource_group_data, hm]] at hd₀
      exact ⟨pairs, rfl, (Except.ok.inj hd₀).symm⟩

/-- A section holding two endpoint blocks with the same name `"E"`: the
first has URI `/1`, the second URI `/2`. -/
def c9Sec : Tag := .mk "section" none []
  [.tag (.mk "h2" (some ["group-heading"]) [] [.text "Sec"]),
   .tag (.mk "div" (some ["action"]) []
     [.tag (.mk "h3" none [] [.text "E"]),
      .tag (.mk "div" none []
        [.tag (.mk "span" none [] [.text "GET"]),
         .tag (.mk "code" none [] [.text "/1"])]),
      .tag (.mk "p" none [] [.text "first"])]),
   .tag (.mk "div" (some ["action"]) []
     [.tag (.mk "h3" none [] [.text "E"]),
      .tag (.mk "div" none []
        [.tag (.mk "span" none [] [.text "GET"]),
         .tag (.mk "code" none [] [.text "/2"])]),
      .tag (.mk "p" none [] [.text "second"])])]

/-- Navigation links for `c9Sec`. -/
def c9Links : List (String × List (String × String)) := [("Sec", [("E", "L")])]

/-- The dict `_parse_section` builds for `c9Sec`: the later occurrence of
the duplicated endpoint name wins. -/
def c9Dict : List (String × EndpointData) :=
  [("E", EndpointData.mk "L" "GET" "/2" [.strs ["p", "second"]])]

theorem claim_C9_witness :
    dictGet? (pyDict [("k", "v1"), ("k", "v2")]) "k" = some "v2" ∧
    (∃ pairs, exceptMap (fun e => _parse_endpoint e c9Links "Sec")
        (get_tags_only ((c9Sec.findAllClass "action").map Node.tag)) = .ok pairs ∧
      c9Dict = pyDict pairs) :=
  ⟨(claim_C9.1 String [("k", "v1"), ("k", "v2")] "k").trans (by decide),
   claim_C9.2.1 c9Sec c9Links "Sec" c9Dict (by decide)⟩

end Okdesk
